import Mathlib

/-!
# Verification of `percache` (persistent memoization via decorators)

Shallow embedding of `src/percache.py` (class `Cache`): the cache-key
derivation performed inside `wrapper`, the wrapper's lookup-or-compute-and-
store logic, `clear`, `stats` and `close`, over a backend modelled as an
association list from string keys to stored entries.

Modelling conventions:
* The backend (a Python `shelve` or an injected mapping-like object) is a
  finite string-keyed mapping; we embed it as an association list with
  first-match lookup, together with a counter of `sync()` calls and a
  closed flag.
* Stored values are either cached results (`Entry.res`) or access
  timestamps (`Entry.atime`); `time.time()` is modelled as a natural
  number supplied by the caller (`now`).
* `hashlib.sha1` is an incremental digest: `sha1(a).update(b).update(c)`
  digests the byte stream `a ++ b ++ c`.  We model the hexdigest as an
  abstract function `H : String → String` of that fed stream, so that key
  equality can be reasoned about up to digest collisions (the digest's
  only role in the source is to map the fed stream to a key string).
* Failures raised by the wrapped callable are modelled by letting the
  callable return `Except ε β`; failures from operating on a closed
  backend are `ClosedError`.  The closed-backend behaviour itself
  (`shelve` raising once closed) is not part of this repository's code;
  it is modelled from the spec: operations on a closed backend fail with
  a `ClosedError`, and `close` is idempotent.
-/

set_option autoImplicit false

namespace Percache

/-- A value stored in the backend: either a cached result of the wrapped
callable or an access timestamp (stored under a `<key>:atime` key). -/
inductive Entry (β : Type) where
  | res : β → Entry β
  | atime : Nat → Entry β
deriving DecidableEq

/-- The backend mapping (Python `self.__cache`): an association list of
string keys to entries, plus a count of `sync()` calls and a closed flag. -/
structure Backend (β : Type) where
  store : List (String × Entry β)
  syncs : Nat
  closed : Bool
deriving DecidableEq

/-- Failure raised when operating on a closed backend.
Modelled from the spec: operations on a closed backend fail with a
`ClosedError` (the concrete store raising after `close()` is external to
the repository). -/
inductive ClosedError where
  | closedError
deriving DecidableEq

variable {α β ε : Type}

/-- First-match association-list lookup; models Python dict indexing
`d[k]` / `k in d` on the backend mapping. -/
def alookup (l : List (String × α)) (k : String) : Option α :=
  match l with
  | [] => none
  | (k', v) :: t => if k' = k then some v else alookup t k

/-- Store a binding, replacing an existing one for the same key; models
Python `d[k] = v`. -/
def astore (l : List (String × α)) (k : String) (v : α) : List (String × α) :=
  match l with
  | [] => [(k, v)]
  | (k', v') :: t => if k' = k then (k, v) :: t else (k', v') :: astore t k v

/-- Python `sorted(kwargs)`: the keyword-argument names in ascending
lexical order. -/
def sortedKeys (kwargs : List (String × α)) : List String :=
  List.insertionSort (· ≤ ·) (kwargs.map Prod.fst)

/-- The string fed to the digest for one keyword argument:
`"%s:%s" % (k, repr(kwargs[k]))`.  The `none` branch is unreachable when
`k` is one of the keys of `kwargs`. -/
def kwargFeed (rf : α → String) (kwargs : List (String × α)) (k : String) : String :=
  match alookup kwargs k with
  | some v => k ++ ":" ++ rf v
  | none => k ++ ":"

/-- The full byte stream fed to the SHA-1 digest in `wrapper`:
`func.__name__`, then `repr(a)` for each positional argument in call
order, then `"name:repr(value)"` for each keyword argument in ascending
key order. -/
def ckeyFeed (funcName : String) (rf : α → String) (args : List α)
    (kwargs : List (String × α)) : String :=
  funcName ++ String.join (args.map rf)
    ++ String.join ((sortedKeys kwargs).map (kwargFeed rf kwargs))

/-- The derived cache key `ckey = hashlib.sha1(...).hexdigest()`, with the
digest abstracted as `H` applied to the fed stream. -/
def derive (H : String → String) (funcName : String) (rf : α → String)
    (args : List α) (kwargs : List (String × α)) : String :=
  H (ckeyFeed funcName rf args kwargs)

/-- `self.__cache[k] = v` on the backend. -/
def Backend.setKey (b : Backend β) (k : String) (v : Entry β) : Backend β :=
  { b with store := astore b.store k v }

/-- `self.__cache.sync()`: flush to durable storage; we count invocations. -/
def Backend.doSync (b : Backend β) : Backend β :=
  { b with syncs := b.syncs + 1 }

/-- `self.__cache.close()`.  Modelled from the spec: idempotent, one-way
transition to the closed state. -/
def Backend.close (b : Backend β) : Backend β :=
  { b with closed := true }

/-- One invocation of the `wrapper` closure produced by `Cache.__call__`.

Mirrors `src/percache.py` lines 86-104: derive the key; on a hit return
the stored value, on a miss invoke the callable (propagating its
failure unchanged, with no writes), otherwise store the result; in both
completing branches write `<key>:atime = now` and, when `livesync`, call
`sync()`.  The outer `Except ClosedError` models the backend raising on
its first use when closed (spec-modelled); the inner `Except ε` is the
wrapped callable's own failure.  The `Bool` in the result records whether
the original callable was invoked. -/
def wrapperCall (H : String → String) (rf : α → String) (livesync : Bool)
    (funcName : String) (func : List α → List (String × α) → Except ε β)
    (args : List α) (kwargs : List (String × α)) (now : Nat) (b : Backend β) :
    Except ClosedError (Except ε (Entry β) × Bool × Backend β) :=
  if b.closed then .error .closedError
  else
    let ckey := derive H funcName rf args kwargs
    match alookup b.store ckey with
    | some stored =>
      let b1 := b.setKey (ckey ++ ":atime") (.atime now)
      let b2 := if livesync then b1.doSync else b1
      .ok (.ok stored, false, b2)
    | none =>
      match func args kwargs with
      | .error e => .ok (.error e, true, b)
      | .ok r =>
        let b1 := b.setKey ckey (.res r)
        let b2 := b1.setKey (ckey ++ ":atime") (.atime now)
        let b3 := if livesync then b2.doSync else b2
        .ok (.ok (.res r), true, b3)

/-- Python `key.endswith(":atime")`. -/
def hasAtimeSuffix (k : String) : Bool :=
  decide (":atime".data <:+ k.data)

/-- Python `key.rsplit(":", 1)[0]` applied to a key ending in `":atime"`:
since `"atime"` contains no colon, the rightmost colon is the one
introducing the suffix, so this strips the final six characters. -/
def stripAtime (k : String) : String :=
  ⟨k.data.take (k.data.length - 6)⟩

/-- `self.__cache[key] < bigbang` for the value stored under an `:atime`
key.  Reachable stores hold timestamps under such keys; a result entry is
never outdated. -/
def entryOutdated (cutoff : Int) : Entry β → Bool
  | .atime t => decide ((t : Int) < cutoff)
  | .res _ => false

/-- The `outdated` list built by `Cache.clear`: for every `:atime` key
whose stored timestamp lies before the cutoff, both that key and its
paired value key (`key.rsplit(":", 1)[0]`). -/
def outdatedKeys (cutoff : Int) : List (String × Entry β) → List String
  | [] => []
  | p :: t =>
    if hasAtimeSuffix p.1 && entryOutdated cutoff p.2 then
      p.1 :: stripAtime p.1 :: outdatedKeys cutoff t
    else outdatedKeys cutoff t

/-- `Cache.clear(maxage)` (`src/percache.py` lines 118-132): when
`maxage > 0`, delete the keys collected in `outdated`; otherwise
`self.__cache.clear()` empties the backend. -/
def clear (maxage : Int) (now : Nat) (b : Backend β) :
    Except ClosedError (Backend β) :=
  if b.closed then .error .closedError
  else if 0 < maxage then
    let bigbang : Int := (now : Int) - maxage
    let out := outdatedKeys bigbang b.store
    .ok { b with store := b.store.filter (fun p => !(out.contains p.1)) }
  else
    .ok { b with store := [] }

/-- The accumulator loop of `Cache.stats`: starting from
`(0, time.time(), 0)`, every `:atime` key bumps the count and folds its
timestamp into the running minimum and maximum. -/
def statsFold (now : Nat) : List (String × Entry β) → Nat × Nat × Nat
  | [] => (0, now, 0)
  | (k, e) :: t =>
    let s := statsFold now t
    if hasAtimeSuffix k then
      match e with
      | .atime a => (s.1 + 1, min s.2.1 a, max s.2.2 a)
      | .res _ => s
    else s

/-- `Cache.stats()` (`src/percache.py` lines 134-149). -/
def stats (now : Nat) (b : Backend β) :
    Except ClosedError (Nat × Nat × Nat) :=
  if b.closed then .error .closedError
  else .ok (statsFold now b.store)

/-- Whether an entry is an access-time record. -/
def isAtimeEntry : Entry β → Bool
  | .res _ => false
  | .atime _ => true

/-- Well-formed backend stores — the states reachable through the cache
API, where derived keys are hex digests: keys are unique; a key holds a
timestamp exactly when it ends in `":atime"`; and no key ends in
`":atime:atime"` (a value key never ends in `":atime"`). -/
def wfStore (s : List (String × Entry β)) : Bool :=
  decide ((s.map Prod.fst).Nodup)
    && s.all (fun p => hasAtimeSuffix p.1 == isAtimeEntry p.2)
    && s.all (fun p => !(decide ((":atime:atime").data <:+ p.1.data)))

/-- `entryOutdated` lifted to an optional lookup result. -/
def optOutdated (cutoff : Int) : Option (Entry β) → Bool
  | some e => entryOutdated cutoff e
  | none => false

/-- A key is doomed by `clear` at the given cutoff when its own stored
timestamp, or the timestamp of its paired `:atime` key, lies before the
cutoff. -/
def doomed (s : List (String × Entry β)) (cutoff : Int) (k : String) : Bool :=
  optOutdated cutoff (alookup s k) || optOutdated cutoff (alookup s (k ++ ":atime"))

/-- The access timestamps scanned by `stats` and `clear`: the values of
the `:atime` keys, in store order. -/
def atimesOf : List (String × Entry β) → List Nat
  | [] => []
  | (k, e) :: t =>
    if hasAtimeSuffix k then
      match e with
      | .atime a => a :: atimesOf t
      | .res _ => atimesOf t
    else atimesOf t

/-- Concrete backend used by witnesses: entry `A` with access time 0,
entry `B` with access time 2 (the spec's age-based-eviction scenario). -/
def backendAB : Backend Nat :=
  ⟨[("A", .res 1), ("A:atime", .atime 0), ("B", .res 2), ("B:atime", .atime 2)],
    0, false⟩

/-! ## Basic lemmas about the store operations -/

theorem data_append (s t : String) : (s ++ t).data = s.data ++ t.data :=
  rfl

theorem atimeKey_ne_base (k : String) : k ++ ":atime" ≠ k := by
  intro h
  have h2 : (k ++ ":atime").data = k.data := congrArg String.data h
  rw [data_append] at h2
  have h3 := congrArg List.length h2
  simp at h3

theorem alookup_astore_self (l : List (String × α)) (k : String) (v : α) :
    alookup (astore l k v) k = some v := by
  induction l with
  | nil => simp [astore, alookup]
  | cons p t ih =>
    obtain ⟨k', v'⟩ := p
    by_cases h : k' = k
    · simp [astore, h, alookup]
    · simp [astore, h, alookup, ih]

theorem alookup_astore_of_ne (l : List (String × α)) (k : String) (v : α)
    (k' : String) (h : k ≠ k') :
    alookup (astore l k v) k' = alookup l k' := by
  induction l with
  | nil => simp [astore, alookup, h]
  | cons p t ih =>
    obtain ⟨k0, v0⟩ := p
    by_cases h0 : k0 = k
    · subst h0
      simp [astore, alookup, h]
    · simp [astore, h0, alookup, ih]

theorem store_ite_doSync (b : Backend β) (c : Bool) :
    (if c then b.doSync else b).store = b.store := by
  cases c <;> rfl

theorem closed_ite_doSync (b : Backend β) (c : Bool) :
    (if c then b.doSync else b).closed = b.closed := by
  cases c <;> rfl

theorem store_setKey (b : Backend β) (k : String) (v : Entry β) :
    (b.setKey k v).store = astore b.store k v :=
  rfl

/-! ## Branch equations for `wrapperCall` -/

theorem wrapperCall_closed_eq (H : String → String) (rf : α → String)
    (livesync : Bool) (funcName : String)
    (func : List α → List (String × α) → Except ε β)
    (args : List α) (kwargs : List (String × α)) (now : Nat)
    (b : Backend β) (hclosed : b.closed = true) :
    wrapperCall H rf livesync funcName func args kwargs now b
      = .error .closedError := by
  rw [wrapperCall, hclosed]
  simp

theorem wrapperCall_hit_eq (H : String → String) (rf : α → String)
    (livesync : Bool) (funcName : String)
    (func : List α → List (String × α) → Except ε β)
    (args : List α) (kwargs : List (String × α)) (now : Nat)
    (b : Backend β) (stored : Entry β)
    (hopen : b.closed = false)
    (hhit : alookup b.store (derive H funcName rf args kwargs) = some stored) :
    wrapperCall H rf livesync funcName func args kwargs now b
      = .ok (.ok stored, false,
          if livesync then
            (b.setKey (derive H funcName rf args kwargs ++ ":atime") (.atime now)).doSync
          else
            b.setKey (derive H funcName rf args kwargs ++ ":atime") (.atime now)) := by
  rw [wrapperCall, hopen]
  simp only [Bool.false_eq_true, if_false]
  rw [hhit]

theorem wrapperCall_err_eq (H : String → String) (rf : α → String)
    (livesync : Bool) (funcName : String)
    (func : List α → List (String × α) → Except ε β)
    (args : List α) (kwargs : List (String × α)) (now : Nat)
    (b : Backend β) (e : ε)
    (hopen : b.closed = false)
    (hmiss : alookup b.store (derive H funcName rf args kwargs) = none)
    (hf : func args kwargs = .error e) :
    wrapperCall H rf livesync funcName func args kwargs now b
      = .ok (.error e, true, b) := by
  rw [wrapperCall, hopen]
  simp only [Bool.false_eq_true, if_false]
  rw [hmiss, hf]

theorem wrapperCall_miss_eq (H : String → String) (rf : α → String)
    (livesync : Bool) (funcName : String)
    (func : List α → List (String × α) → Except ε β)
    (args : List α) (kwargs : List (String × α)) (now : Nat)
    (b : Backend β) (v : β)
    (hopen : b.closed = false)
    (hmiss : alookup b.store (derive H funcName rf args kwargs) = none)
    (hf : func args kwargs = .ok v) :
    wrapperCall H rf livesync funcName func args kwargs now b
      = .ok (.ok (.res v), true,
          if livesync then
            ((b.setKey (derive H funcName rf args kwargs) (.res v)).setKey
              (derive H funcName rf args kwargs ++ ":atime") (.atime now)).doSync
          else
            (b.setKey (derive H funcName rf args kwargs) (.res v)).setKey
              (derive H funcName rf args kwargs ++ ":atime") (.atime now)) := by
  rw [wrapperCall, hopen]
  simp only [Bool.false_eq_true, if_false]
  rw [hmiss, hf]

/-! ## Claims -/

/-- C1: for every wrapped callable and argument signature, a first
invocation (the derived key absent from the backend) invokes the original
callable and stores its result under the derived key; a second invocation
with the same signature does not invoke the original callable (the
invoked flag is `false`) and returns the stored value. -/
theorem claim_C1_hit_miss (H : String → String) (rf : α → String)
    (livesync : Bool) (funcName : String)
    (func : List α → List (String × α) → Except ε β)
    (args : List α) (kwargs : List (String × α)) (now1 now2 : Nat)
    (b : Backend β) (v : β)
    (hopen : b.closed = false)
    (hmiss : alookup b.store (derive H funcName rf args kwargs) = none)
    (hf : func args kwargs = .ok v) :
    ∃ b1, wrapperCall H rf livesync funcName func args kwargs now1 b
        = .ok (.ok (.res v), true, b1) ∧
      alookup b1.store (derive H funcName rf args kwargs) = some (.res v) ∧
      ∃ b2, wrapperCall H rf livesync funcName func args kwargs now2 b1
        = .ok (.ok (.res v), false, b2) := by
  refine ⟨_, wrapperCall_miss_eq H rf livesync funcName func args kwargs now1
    b v hopen hmiss hf, ?_, ?_⟩
  · rw [store_ite_doSync, store_setKey, store_setKey,
      alookup_astore_of_ne _ _ _ _
        (atimeKey_ne_base (derive H funcName rf args kwargs)),
      alookup_astore_self]
  · have hopen1 : (if livesync then
        ((b.setKey (derive H funcName rf args kwargs) (.res v)).setKey
          (derive H funcName rf args kwargs ++ ":atime") (.atime now1)).doSync
      else
        (b.setKey (derive H funcName rf args kwargs) (.res v)).setKey
          (derive H funcName rf args kwargs ++ ":atime") (.atime now1)).closed
        = false := by
      rw [closed_ite_doSync]
      exact hopen
    have hhit1 : alookup (if livesync then
        ((b.setKey (derive H funcName rf args kwargs) (.res v)).setKey
          (derive H funcName rf args kwargs ++ ":atime") (.atime now1)).doSync
      else
        (b.setKey (derive H funcName rf args kwargs) (.res v)).setKey
          (derive H funcName rf args kwargs ++ ":atime") (.atime now1)).store
        (derive H funcName rf args kwargs) = some (.res v) := by
      rw [store_ite_doSync, store_setKey, store_setKey,
        alookup_astore_of_ne _ _ _ _
          (atimeKey_ne_base (derive H funcName rf args kwargs)),
        alookup_astore_self]
    exact ⟨_, wrapperCall_hit_eq H rf livesync funcName func args kwargs now2
      _ _ hopen1 hhit1⟩

/-- Witness for C1 at a concrete input: empty open backend, callable
returning 5 on arguments `[1, 2]`. -/
theorem claim_C1_hit_miss_witness :
    (Backend.mk ([] : List (String × Entry Nat)) 0 false).closed = false ∧
    alookup (Backend.mk ([] : List (String × Entry Nat)) 0 false).store
      (derive id "f" (fun n : Nat => toString n) [1, 2] []) = none ∧
    (fun (_ : List Nat) (_ : List (String × Nat)) =>
      (.ok 5 : Except Unit Nat)) [1, 2] [] = .ok 5 ∧
    (∃ b1, wrapperCall id (fun n : Nat => toString n) true "f"
        (fun _ _ => (.ok 5 : Except Unit Nat)) [1, 2] [] 10
        (Backend.mk [] 0 false) = .ok (.ok (.res 5), true, b1) ∧
      alookup b1.store (derive id "f" (fun n : Nat => toString n) [1, 2] [])
        = some (.res 5) ∧
      ∃ b2, wrapperCall id (fun n : Nat => toString n) true "f"
        (fun _ _ => (.ok 5 : Except Unit Nat)) [1, 2] [] 11 b1
        = .ok (.ok (.res 5), false, b2)) :=
  ⟨rfl, rfl, rfl,
    claim_C1_hit_miss id _ true "f" _ [1, 2] [] 10 11 _ 5 rfl rfl rfl⟩

/-- C2: when the original callable fails on a cache miss, the wrapped
call propagates that same failure unmodified, records that the callable
was invoked, and returns the backend unchanged — no result and no atime
entry is written, so a subsequent identical call re-invokes the original
callable (its invoked flag is again `true`). -/
theorem claim_C2_failure_not_cached (H : String → String) (rf : α → String)
    (livesync : Bool) (funcName : String)
    (func : List α → List (String × α) → Except ε β)
    (args : List α) (kwargs : List (String × α)) (now1 now2 : Nat)
    (b : Backend β) (e : ε)
    (hopen : b.closed = false)
    (hmiss : alookup b.store (derive H funcName rf args kwargs) = none)
    (hf : func args kwargs = .error e) :
    wrapperCall H rf livesync funcName func args kwargs now1 b
      = .ok (.error e, true, b) ∧
    wrapperCall H rf livesync funcName func args kwargs now2 b
      = .ok (.error e, true, b) := by
  exact ⟨wrapperCall_err_eq H rf livesync funcName func args kwargs now1
      b e hopen hmiss hf,
    wrapperCall_err_eq H rf livesync funcName func args kwargs now2
      b e hopen hmiss hf⟩

/-- Witness for C2 at a concrete input: callable failing with error 7. -/
theorem claim_C2_failure_not_cached_witness :
    (Backend.mk ([] : List (String × Entry Nat)) 0 false).closed = false ∧
    alookup (Backend.mk ([] : List (String × Entry Nat)) 0 false).store
      (derive id "f" (fun n : Nat => toString n) [3] []) = none ∧
    (fun (_ : List Nat) (_ : List (String × Nat)) =>
      (.error 7 : Except Nat Nat)) [3] [] = .error 7 ∧
    (wrapperCall id (fun n : Nat => toString n) false "f"
        (fun _ _ => (.error 7 : Except Nat Nat)) [3] [] 10
        (Backend.mk [] 0 false) = .ok (.error 7, true, Backend.mk [] 0 false) ∧
      wrapperCall id (fun n : Nat => toString n) false "f"
        (fun _ _ => (.error 7 : Except Nat Nat)) [3] [] 11
        (Backend.mk [] 0 false) = .ok (.error 7, true, Backend.mk [] 0 false)) :=
  ⟨rfl, rfl, rfl,
    claim_C2_failure_not_cached id _ false "f" _ [3] [] 10 11 _ 7 rfl rfl rfl⟩

theorem syncs_setKey (b : Backend β) (k : String) (v : Entry β) :
    (b.setKey k v).syncs = b.syncs :=
  rfl

/-- C5: every invocation of a wrapped callable that returns normally —
cache hit or cache miss — leaves the entry `<key>:atime` set to the
current timestamp in the resulting backend. -/
theorem claim_C5_atime_updated (H : String → String) (rf : α → String)
    (livesync : Bool) (funcName : String)
    (func : List α → List (String × α) → Except ε β)
    (args : List α) (kwargs : List (String × α)) (now : Nat)
    (b b' : Backend β) (rv : Entry β) (inv : Bool)
    (h : wrapperCall H rf livesync funcName func args kwargs now b
      = .ok (.ok rv, inv, b')) :
    alookup b'.store (derive H funcName rf args kwargs ++ ":atime")
      = some (.atime now) := by
  cases hc : b.closed with
  | true =>
    rw [wrapperCall_closed_eq H rf livesync funcName func args kwargs now b hc] at h
    exact absurd h (by simp)
  | false =>
    cases hl : alookup b.store (derive H funcName rf args kwargs) with
    | some stored =>
      rw [wrapperCall_hit_eq H rf livesync funcName func args kwargs now b
        stored hc hl] at h
      simp only [Except.ok.injEq, Prod.mk.injEq] at h
      obtain ⟨-, -, h3⟩ := h
      rw [← h3, store_ite_doSync, store_setKey, alookup_astore_self]
    | none =>
      cases hfv : func args kwargs with
      | error e =>
        rw [wrapperCall_err_eq H rf livesync funcName func args kwargs now b
          e hc hl hfv] at h
        simp at h
      | ok v =>
        rw [wrapperCall_miss_eq H rf livesync funcName func args kwargs now b
          v hc hl hfv] at h
        simp only [Except.ok.injEq, Prod.mk.injEq] at h
        obtain ⟨-, -, h3⟩ := h
        rw [← h3, store_ite_doSync, store_setKey, alookup_astore_self]

/-- Witness for C5 at a concrete miss and a concrete hit. -/
theorem claim_C5_atime_updated_witness :
    (wrapperCall id (id : String → String) false "f"
        (fun _ _ => (.ok 5 : Except Unit Nat)) ["a", "b"] [] 10
        (Backend.mk [] 0 false)
      = .ok (.ok (.res 5), true,
          Backend.mk [("fab", .res 5), ("fab:atime", .atime 10)] 0 false)) ∧
    alookup (Backend.mk [("fab", Entry.res 5), ("fab:atime", Entry.atime 10)]
        0 false).store
      (derive id "f" (id : String → String) ["a", "b"] [] ++ ":atime")
      = some (.atime 10) ∧
    (wrapperCall id (id : String → String) false "f"
        (fun _ _ => (.ok 5 : Except Unit Nat)) ["a", "b"] [] 11
        (Backend.mk [("fab", .res 5), ("fab:atime", .atime 10)] 0 false)
      = .ok (.ok (.res 5), false,
          Backend.mk [("fab", .res 5), ("fab:atime", .atime 11)] 0 false)) ∧
    alookup (Backend.mk [("fab", Entry.res 5), ("fab:atime", Entry.atime 11)]
        0 false).store
      (derive id "f" (id : String → String) ["a", "b"] [] ++ ":atime")
      = some (.atime 11) :=
  ⟨rfl,
    claim_C5_atime_updated id id false "f" (fun _ _ => (.ok 5 : Except Unit Nat))
      ["a", "b"] [] 10 (Backend.mk [] 0 false)
      (Backend.mk [("fab", .res 5), ("fab:atime", .atime 10)] 0 false)
      (.res 5) true rfl,
    rfl,
    claim_C5_atime_updated id id false "f" (fun _ _ => (.ok 5 : Except Unit Nat))
      ["a", "b"] [] 11
      (Backend.mk [("fab", .res 5), ("fab:atime", .atime 10)] 0 false)
      (Backend.mk [("fab", .res 5), ("fab:atime", .atime 11)] 0 false)
      (.res 5) false rfl⟩

/-- C8: once the engine is closed, every operation other than `close`
(the wrapped callable, `clear`, `stats`) fails with a `ClosedError`, and
the OPEN to CLOSED transition is one-way: `close` always yields a closed
backend and is idempotent, so no operation leads back to an open state. -/
theorem claim_C8_closed_state (H : String → String) (rf : α → String)
    (livesync : Bool) (funcName : String)
    (func : List α → List (String × α) → Except ε β)
    (args : List α) (kwargs : List (String × α)) (now : Nat) (maxage : Int)
    (b : Backend β) (hclosed : b.closed = true) :
    wrapperCall H rf livesync funcName func args kwargs now b
      = .error .closedError ∧
    clear maxage now b = .error .closedError ∧
    stats now b = .error .closedError ∧
    Backend.close b = b ∧
    (∀ b' : Backend β, (Backend.close b').closed = true) := by
  refine ⟨wrapperCall_closed_eq H rf livesync funcName func args kwargs now
    b hclosed, ?_, ?_, ?_, fun b' => rfl⟩
  · rw [clear, hclosed]
    simp
  · rw [stats, hclosed]
    simp
  · rw [Backend.close, ← hclosed]

/-- Witness for C8 at a concrete closed backend. -/
theorem claim_C8_closed_state_witness :
    (Backend.mk [("fab", Entry.res 5)] 0 true).closed = true ∧
    (wrapperCall id (id : String → String) false "f"
        (fun _ _ => (.ok 5 : Except Unit Nat)) ["a", "b"] [] 10
        (Backend.mk [("fab", .res 5)] 0 true) = .error .closedError ∧
      clear 1 10 (Backend.mk [("fab", Entry.res 5)] 0 true)
        = .error .closedError ∧
      stats 10 (Backend.mk [("fab", Entry.res 5)] 0 true)
        = .error .closedError ∧
      Backend.close (Backend.mk [("fab", Entry.res 5)] 0 true)
        = Backend.mk [("fab", Entry.res 5)] 0 true ∧
      (∀ b' : Backend Nat, (Backend.close b').closed = true)) :=
  ⟨rfl, claim_C8_closed_state id id false "f"
    (fun _ _ => (.ok 5 : Except Unit Nat)) ["a", "b"] [] 10 1 _ rfl⟩

/-- C9: with live-sync enabled, every normally-returning invocation of
the wrapped callable (hit or miss — both write) calls `sync()` on the
backend exactly once; with live-sync disabled, neither the wrapped
callable nor `clear` nor `close` ever calls `sync()`. -/
theorem claim_C9_livesync (H : String → String) (rf : α → String)
    (funcName : String) (func : List α → List (String × α) → Except ε β)
    (args : List α) (kwargs : List (String × α)) (now : Nat) (maxage : Int)
    (b : Backend β) :
    (∀ rv inv b', wrapperCall H rf true funcName func args kwargs now b
        = .ok (.ok rv, inv, b') → b'.syncs = b.syncs + 1) ∧
    (∀ r inv b', wrapperCall H rf false funcName func args kwargs now b
        = .ok (r, inv, b') → b'.syncs = b.syncs) ∧
    (∀ b', clear maxage now b = .ok b' → b'.syncs = b.syncs) ∧
    (Backend.close b).syncs = b.syncs := by
  refine ⟨?_, ?_, ?_, rfl⟩
  · intro rv inv b' h
    cases hc : b.closed with
    | true =>
      rw [wrapperCall_closed_eq H rf true funcName func args kwargs now b hc] at h
      exact absurd h (by simp)
    | false =>
      cases hl : alookup b.store (derive H funcName rf args kwargs) with
      | some stored =>
        rw [wrapperCall_hit_eq H rf true funcName func args kwargs now b
          stored hc hl] at h
        simp only [if_true, Except.ok.injEq, Prod.mk.injEq] at h
        obtain ⟨-, -, h3⟩ := h
        rw [← h3]
        rfl
      | none =>
        cases hfv : func args kwargs with
        | error e =>
          rw [wrapperCall_err_eq H rf true funcName func args kwargs now b
            e hc hl hfv] at h
          simp at h
        | ok v =>
          rw [wrapperCall_miss_eq H rf true funcName func args kwargs now b
            v hc hl hfv] at h
          simp only [if_true, Except.ok.injEq, Prod.mk.injEq] at h
          obtain ⟨-, -, h3⟩ := h
          rw [← h3]
          rfl
  · intro r inv b' h
    cases hc : b.closed with
    | true =>
      rw [wrapperCall_closed_eq H rf false funcName func args kwargs now b hc] at h
      exact absurd h (by simp)
    | false =>
      cases hl : alookup b.store (derive H funcName rf args kwargs) with
      | some stored =>
        rw [wrapperCall_hit_eq H rf false funcName func args kwargs now b
          stored hc hl] at h
        simp only [Bool.false_eq_true, if_false, Except.ok.injEq,
          Prod.mk.injEq] at h
        obtain ⟨-, -, h3⟩ := h
        rw [← h3]
        rfl
      | none =>
        cases hfv : func args kwargs with
        | error e =>
          rw [wrapperCall_err_eq H rf false funcName func args kwargs now b
            e hc hl hfv] at h
          simp only [Except.ok.injEq, Prod.mk.injEq] at h
          obtain ⟨-, -, h3⟩ := h
          rw [← h3]
        | ok v =>
          rw [wrapperCall_miss_eq H rf false funcName func args kwargs now b
            v hc hl hfv] at h
          simp only [Bool.false_eq_true, if_false, Except.ok.injEq,
            Prod.mk.injEq] at h
          obtain ⟨-, -, h3⟩ := h
          rw [← h3]
          rfl
  · intro b' h
    rw [clear] at h
    cases hc : b.closed with
    | true =>
      rw [hc] at h
      simp at h
    | false =>
      rw [hc] at h
      simp only [Bool.false_eq_true, if_false] at h
      by_cases hm : 0 < maxage
      · rw [if_pos hm] at h
        simp only [Except.ok.injEq] at h
        rw [← h]
      · rw [if_neg hm] at h
        simp only [Except.ok.injEq] at h
        rw [← h]

/-- Witness for C9: a hit with live-sync on bumps the sync counter; the
same hit with live-sync off leaves it untouched. -/
theorem claim_C9_livesync_witness :
    ((Backend.mk [("fab", Entry.res (5 : Nat)), ("fab:atime", Entry.atime 10)]
        3 false).syncs = 3) ∧
    (∀ rv inv b', wrapperCall id (id : String → String) true "f"
        (fun _ _ => (.ok 5 : Except Unit Nat)) ["a", "b"] [] 11
        (Backend.mk [("fab", .res 5), ("fab:atime", .atime 10)] 3 false)
        = .ok (.ok rv, inv, b') → b'.syncs = 3 + 1) ∧
    (∀ r inv b', wrapperCall id (id : String → String) false "f"
        (fun _ _ => (.ok 5 : Except Unit Nat)) ["a", "b"] [] 11
        (Backend.mk [("fab", .res 5), ("fab:atime", .atime 10)] 3 false)
        = .ok (r, inv, b') → b'.syncs = 3) ∧
    (∀ b', clear 1 11 (Backend.mk [("fab", Entry.res (5 : Nat)),
        ("fab:atime", Entry.atime 10)] 3 false)
        = .ok b' → b'.syncs = 3) ∧
    (Backend.close (Backend.mk [("fab", Entry.res (5 : Nat)),
        ("fab:atime", Entry.atime 10)] 3 false)).syncs = 3 :=
  ⟨rfl, claim_C9_livesync id id "f" (fun _ _ => (.ok 5 : Except Unit Nat))
    ["a", "b"] [] 11 1 _⟩

/-- C10: calling `clear` with `max_age` equal to zero (the default) or
negative removes every key from the backend, because the age-based sweep
runs only when `max_age` is strictly positive. -/
theorem claim_C10_nonpositive_full_clear (maxage : Int) (now : Nat)
    (b : Backend β) (hopen : b.closed = false) (hnp : maxage ≤ 0) :
    clear maxage now b = .ok { b with store := [] } := by
  rw [clear, hopen]
  simp only [Bool.false_eq_true, if_false]
  rw [if_neg (by omega)]

/-- Witness for C10 at `max_age = -2` on a nonempty open backend. -/
theorem claim_C10_nonpositive_full_clear_witness :
    (Backend.mk [("fab", Entry.res (5 : Nat)), ("fab:atime", Entry.atime 10)]
        0 false).closed = false ∧
    (-2 : Int) ≤ 0 ∧
    clear (-2) 99 (Backend.mk [("fab", Entry.res (5 : Nat)),
        ("fab:atime", Entry.atime 10)] 0 false)
      = .ok (Backend.mk [] 0 false) :=
  ⟨rfl, by decide,
    claim_C10_nonpositive_full_clear (-2) 99 _ rfl (by decide)⟩

/-! ## Lookup under permutation, for keyword-argument order independence -/

theorem alookup_eq_none_iff (l : List (String × α)) (k : String) :
    alookup l k = none ↔ k ∉ l.map Prod.fst := by
  induction l with
  | nil => simp [alookup]
  | cons p t ih =>
    obtain ⟨k', v⟩ := p
    rw [alookup]
    by_cases h : k' = k
    · subst h
      simp
    · rw [if_neg h, ih]
      constructor
      · intro hn hm
        rcases List.mem_cons.mp hm with heq | hm2
        · exact h heq.symm
        · exact hn hm2
      · intro hn hm
        exact hn (List.mem_cons_of_mem _ hm)

theorem mem_of_alookup_eq_some (l : List (String × α)) (k : String) (v : α)
    (h : alookup l k = some v) : (k, v) ∈ l := by
  induction l with
  | nil => simp [alookup] at h
  | cons p t ih =>
    obtain ⟨k', v'⟩ := p
    by_cases hk : k' = k
    · rw [alookup, if_pos hk] at h
      obtain rfl := Option.some.injEq _ _ ▸ h
      subst hk
      exact List.mem_cons_self _ _
    · rw [alookup, if_neg hk] at h
      exact List.mem_cons_of_mem _ (ih h)

theorem alookup_eq_some_of_mem (l : List (String × α))
    (hnd : (l.map Prod.fst).Nodup) (k : String) (v : α) (hm : (k, v) ∈ l) :
    alookup l k = some v := by
  induction l with
  | nil => simp at hm
  | cons p t ih =>
    obtain ⟨k', v'⟩ := p
    rcases List.mem_cons.mp hm with heq | hm'
    · obtain ⟨rfl, rfl⟩ := Prod.mk.injEq .. ▸ heq
      rw [alookup, if_pos rfl]
    · by_cases hk : k' = k
      · subst hk
        exfalso
        have : k' ∈ t.map Prod.fst :=
          List.mem_map.mpr ⟨(k', v), hm', rfl⟩
        exact (List.nodup_cons.mp hnd).1 this
      · rw [alookup, if_neg hk]
        exact ih (List.nodup_cons.mp hnd).2 hm'

theorem alookup_eq_of_perm (kw1 kw2 : List (String × α)) (hperm : kw1.Perm kw2)
    (hnd : (kw1.map Prod.fst).Nodup) (k : String) :
    alookup kw1 k = alookup kw2 k := by
  have hnd2 : (kw2.map Prod.fst).Nodup :=
    ((hperm.map Prod.fst).nodup_iff).mp hnd
  cases hl : alookup kw1 k with
  | none =>
    have hnot := (alookup_eq_none_iff kw1 k).mp hl
    symm
    rw [alookup_eq_none_iff]
    intro hmem
    exact hnot ((hperm.map Prod.fst).mem_iff.mpr hmem)
  | some v =>
    have hm : (k, v) ∈ kw2 := hperm.mem_iff.mp (mem_of_alookup_eq_some _ _ _ hl)
    exact (alookup_eq_some_of_mem kw2 hnd2 k v hm).symm

theorem sortedKeys_eq_of_perm (kw1 kw2 : List (String × α))
    (hperm : kw1.Perm kw2) : sortedKeys kw1 = sortedKeys kw2 := by
  haveI : IsAntisymm String (· ≤ ·) := ⟨fun _ _ => le_antisymm⟩
  have hs1 : List.Sorted (· ≤ ·) (sortedKeys kw1) :=
    List.sorted_insertionSort _ _
  have hs2 : List.Sorted (· ≤ ·) (sortedKeys kw2) :=
    List.sorted_insertionSort _ _
  have hp : (sortedKeys kw1).Perm (sortedKeys kw2) :=
    (List.perm_insertionSort _ _).trans
      ((hperm.map Prod.fst).trans (List.perm_insertionSort _ _).symm)
  exact List.eq_of_perm_of_sorted hp hs1 hs2

/-- C3: the derived cache key does not depend on the order in which
keyword arguments are supplied: two keyword-argument mappings with the
same name-to-value bindings (a permutation of one another, names unique)
yield the same key, for every callable name, positional argument list,
representation function and digest. -/
theorem claim_C3_kwarg_order_independence (H : String → String)
    (funcName : String) (rf : α → String) (args : List α)
    (kw1 kw2 : List (String × α)) (hperm : kw1.Perm kw2)
    (hnd : (kw1.map Prod.fst).Nodup) :
    derive H funcName rf args kw1 = derive H funcName rf args kw2 := by
  have hfeed : kwargFeed rf kw1 = kwargFeed rf kw2 := by
    funext k
    rw [kwargFeed, kwargFeed, alookup_eq_of_perm kw1 kw2 hperm hnd k]
  rw [derive, derive, ckeyFeed, ckeyFeed, hfeed,
    sortedKeys_eq_of_perm kw1 kw2 hperm]

/-- Witness for C3: `f(x=1, y=2)` and `f(y=2, x=1)` derive the same key. -/
theorem claim_C3_kwarg_order_independence_witness :
    ([("y", "2"), ("x", "1")] : List (String × String)).Perm
      [("x", "1"), ("y", "2")] ∧
    (([("y", "2"), ("x", "1")] : List (String × String)).map Prod.fst).Nodup ∧
    derive id "f" (id : String → String) [] [("y", "2"), ("x", "1")]
      = derive id "f" (id : String → String) [] [("x", "1"), ("y", "2")] :=
  ⟨by decide, by decide,
    claim_C3_kwarg_order_independence id "f" id []
      [("y", "2"), ("x", "1")] [("x", "1"), ("y", "2")] (by decide) (by decide)⟩

/-- C4 counterexample: the derivation is NOT collision-resistant beyond
representation collisions.  The digest consumes the bare concatenation of
the per-argument representation strings, so argument boundaries are
erased: with the injective representation function `id`, the single
argument `"ab"` and the argument pair `"a", "b"` have differing
representation sequences yet produce the same digest input — hence the
same key under any digest function (exhibited here with `id`). -/
theorem claim_C4_counterexample :
    (["ab"] : List String) ≠ ["a", "b"] ∧
    Function.Injective (id : String → String) ∧
    ckeyFeed "f" (id : String → String) ["ab"] []
      = ckeyFeed "f" (id : String → String) ["a", "b"] [] ∧
    derive id "f" (id : String → String) ["ab"] []
      = derive id "f" (id : String → String) ["a", "b"] [] :=
  ⟨by decide, fun _ _ h => h, by decide, by decide⟩

/-- C4 amended: the derived keys of two invocations differ whenever the
digests are collision-free on the fed streams (modelled by an injective
digest) and the concatenated feeds — callable name, positional
representations in order, and `"name:representation"` pairs in ascending
name order — differ as strings.  Equal concatenations (such as argument
boundaries shifted between positional arguments) may collide even when
the per-argument representation sequences differ. -/
theorem claim_C4_amended_key_injective_on_feeds (H : String → String)
    (hH : Function.Injective H) (funcName1 funcName2 : String)
    (rf : α → String) (args1 args2 : List α)
    (kw1 kw2 : List (String × α))
    (hneq : ckeyFeed funcName1 rf args1 kw1 ≠ ckeyFeed funcName2 rf args2 kw2) :
    derive H funcName1 rf args1 kw1 ≠ derive H funcName2 rf args2 kw2 :=
  fun h => hneq (hH h)

/-- Witness for C4 amended: differing feeds give differing keys. -/
theorem claim_C4_amended_key_injective_on_feeds_witness :
    Function.Injective (id : String → String) ∧
    ckeyFeed "f" (id : String → String) ["a"] []
      ≠ ckeyFeed "g" (id : String → String) ["a"] [] ∧
    derive id "f" (id : String → String) ["a"] []
      ≠ derive id "g" (id : String → String) ["a"] [] :=
  ⟨fun _ _ h => h, by decide,
    claim_C4_amended_key_injective_on_feeds id (fun _ _ h => h) "f" "g" id
      ["a"] ["a"] [] [] (by decide)⟩

/-! ## Well-formedness of stores, and the `stats` fold -/

theorem wfStore_parts (s : List (String × Entry β)) (hwf : wfStore s = true) :
    (s.map Prod.fst).Nodup ∧
    (∀ p ∈ s, hasAtimeSuffix p.1 = isAtimeEntry p.2) ∧
    (∀ p ∈ s, decide ((":atime:atime").data <:+ p.1.data) = false) := by
  rw [wfStore, Bool.and_eq_true, Bool.and_eq_true] at hwf
  obtain ⟨⟨h1, h2⟩, h3⟩ := hwf
  refine ⟨of_decide_eq_true h1, ?_, ?_⟩
  · intro p hp
    have := List.all_eq_true.mp h2 p hp
    exact eq_of_beq this
  · intro p hp
    have := List.all_eq_true.mp h3 p hp
    rwa [Bool.not_eq_eq_eq_not, Bool.not_true] at this

theorem statsFold_eq_atimesOf (now : Nat) (s : List (String × Entry β)) :
    statsFold now s
      = ((atimesOf s).length, (atimesOf s).foldr min now,
          (atimesOf s).foldr max 0) := by
  induction s with
  | nil => rfl
  | cons p t ih =>
    obtain ⟨k, e⟩ := p
    cases e with
    | res v =>
      cases hs : hasAtimeSuffix k with
      | false => simp [statsFold, atimesOf, hs, ih]
      | true => simp [statsFold, atimesOf, hs, ih]
    | atime a =>
      cases hs : hasAtimeSuffix k with
      | false => simp [statsFold, atimesOf, hs, ih]
      | true =>
        simp only [statsFold, atimesOf, hs, ih, if_true, List.length_cons,
          List.foldr_cons, Prod.mk.injEq]
        exact ⟨trivial, min_comm _ _, max_comm _ _⟩

theorem length_atimesOf_eq_countP (s : List (String × Entry β))
    (hall : ∀ p ∈ s, hasAtimeSuffix p.1 = isAtimeEntry p.2) :
    (atimesOf s).length = s.countP (fun p => hasAtimeSuffix p.1) := by
  induction s with
  | nil => rfl
  | cons p t ih =>
    obtain ⟨k, e⟩ := p
    have hk := hall (k, e) (List.mem_cons_self _ _)
    have ht : ∀ p ∈ t, hasAtimeSuffix p.1 = isAtimeEntry p.2 :=
      fun p hp => hall p (List.mem_cons_of_mem _ hp)
    cases hs : hasAtimeSuffix k with
    | false =>
      have : atimesOf ((k, e) :: t) = atimesOf t := by
        cases e <;> simp [atimesOf, hs]
      rw [this, List.countP_cons]
      simp only [hs, cond_false, ih ht]
      simp
    | true =>
      rw [hs] at hk
      cases e with
      | res v => exact absurd hk.symm (by simp [isAtimeEntry])
      | atime a =>
        have : atimesOf ((k, Entry.atime a) :: t) = a :: atimesOf t := by
          simp [atimesOf, hs]
        rw [this, List.countP_cons]
        simp only [hs, List.length_cons, ih ht]
        simp

theorem foldr_min_mem (l : List Nat) (a : Nat) :
    l.foldr min a = a ∨ l.foldr min a ∈ l := by
  induction l with
  | nil => exact Or.inl rfl
  | cons x t ih =>
    rw [List.foldr_cons]
    rcases le_total x (t.foldr min a) with h | h
    · rw [min_eq_left h]
      exact Or.inr (List.mem_cons_self _ _)
    · rw [min_eq_right h]
      rcases ih with h2 | h2
      · exact Or.inl h2
      · exact Or.inr (List.mem_cons_of_mem _ h2)

theorem foldr_min_le (l : List Nat) (a : Nat) :
    l.foldr min a ≤ a ∧ ∀ t ∈ l, l.foldr min a ≤ t := by
  induction l with
  | nil => exact ⟨le_refl a, by simp⟩
  | cons x t ih =>
    rw [List.foldr_cons]
    refine ⟨le_trans (min_le_right _ _) ih.1, ?_⟩
    intro u hu
    rcases List.mem_cons.mp hu with rfl | hu2
    · exact min_le_left _ _
    · exact le_trans (min_le_right _ _) (ih.2 u hu2)

theorem foldr_max_mem (l : List Nat) (a : Nat) :
    l.foldr max a = a ∨ l.foldr max a ∈ l := by
  induction l with
  | nil => exact Or.inl rfl
  | cons x t ih =>
    rw [List.foldr_cons]
    rcases le_total x (t.foldr max a) with h | h
    · rw [max_eq_right h]
      rcases ih with h2 | h2
      · exact Or.inl h2
      · exact Or.inr (List.mem_cons_of_mem _ h2)
    · rw [max_eq_left h]
      exact Or.inr (List.mem_cons_self _ _)

theorem le_foldr_max (l : List Nat) (a : Nat) :
    a ≤ l.foldr max a ∧ ∀ t ∈ l, t ≤ l.foldr max a := by
  induction l with
  | nil => exact ⟨le_refl a, by simp⟩
  | cons x t ih =>
    rw [List.foldr_cons]
    refine ⟨le_trans ih.1 (le_max_right _ _), ?_⟩
    intro u hu
    rcases List.mem_cons.mp hu with rfl | hu2
    · exact le_max_left _ _
    · exact le_trans (ih.2 u hu2) (le_max_right _ _)

/-- C7: on an open, well-formed backend whose stored access timestamps
do not lie in the future, `stats()` returns the number of `:atime` keys
as the count, the minimum stored access timestamp as `oldest` and the
maximum as `newest`; on a cache with no entries, `oldest` defaults to
the current time and `newest` to the epoch origin 0. -/
theorem claim_C7_stats (now : Nat) (b : Backend β) (n oldest newest : Nat)
    (hopen : b.closed = false)
    (hwf : wfStore b.store = true)
    (hbound : ∀ t ∈ atimesOf b.store, t ≤ now)
    (h : stats now b = .ok (n, oldest, newest)) :
    n = b.store.countP (fun p => hasAtimeSuffix p.1) ∧
    (atimesOf b.store = [] → oldest = now ∧ newest = 0) ∧
    (atimesOf b.store ≠ [] →
      oldest ∈ atimesOf b.store ∧ newest ∈ atimesOf b.store ∧
      ∀ t ∈ atimesOf b.store, oldest ≤ t ∧ t ≤ newest) := by
  rw [stats, hopen] at h
  simp only [Bool.false_eq_true, if_false, Except.ok.injEq] at h
  rw [statsFold_eq_atimesOf] at h
  simp only [Prod.mk.injEq] at h
  obtain ⟨h1, h2, h3⟩ := h
  refine ⟨?_, ?_, ?_⟩
  · rw [← h1, length_atimesOf_eq_countP _ (wfStore_parts _ hwf).2.1]
  · intro hemp
    rw [← h2, ← h3, hemp]
    exact ⟨rfl, rfl⟩
  · intro hne
    refine ⟨?_, ?_, ?_⟩
    · rcases foldr_min_mem (atimesOf b.store) now with hc | hc
      · obtain ⟨t0, ht0⟩ := List.exists_mem_of_ne_nil _ hne
        have hle : now ≤ t0 := hc ▸ (foldr_min_le (atimesOf b.store) now).2 t0 ht0
        have ht0n : t0 = now := le_antisymm (hbound t0 ht0) hle
        rw [← h2, hc, ← ht0n]
        exact ht0
      · rw [← h2]
        exact hc
    · rcases foldr_max_mem (atimesOf b.store) 0 with hc | hc
      · obtain ⟨t0, ht0⟩ := List.exists_mem_of_ne_nil _ hne
        have hle : t0 ≤ 0 := hc ▸ (le_foldr_max (atimesOf b.store) 0).2 t0 ht0
        have ht0n : t0 = 0 := Nat.le_zero.mp hle
        rw [← h3, hc, ← ht0n]
        exact ht0
      · rw [← h3]
        exact hc
    · intro t ht
      exact ⟨h2 ▸ (foldr_min_le (atimesOf b.store) now).2 t ht,
        h3 ▸ (le_foldr_max (atimesOf b.store) 0).2 t ht⟩

/-- Witness for C7: backend with entries at times 3 and 9 queried at
time 10 reports count 2, oldest 3, newest 9; the empty backend reports
count 0, oldest now, newest 0. -/
theorem claim_C7_stats_witness :
    (Backend.mk [("k1", Entry.res (5 : Nat)), ("k1:atime", Entry.atime 3),
        ("k2:atime", Entry.atime 9)] 0 false).closed = false ∧
    wfStore (Backend.mk [("k1", Entry.res (5 : Nat)),
        ("k1:atime", Entry.atime 3), ("k2:atime", Entry.atime 9)]
        0 false).store = true ∧
    (∀ t ∈ atimesOf (Backend.mk [("k1", Entry.res (5 : Nat)),
        ("k1:atime", Entry.atime 3), ("k2:atime", Entry.atime 9)]
        0 false).store, t ≤ 10) ∧
    stats 10 (Backend.mk [("k1", Entry.res (5 : Nat)),
        ("k1:atime", Entry.atime 3), ("k2:atime", Entry.atime 9)] 0 false)
      = .ok (2, 3, 9) ∧
    ((2 : Nat) = (Backend.mk [("k1", Entry.res (5 : Nat)),
        ("k1:atime", Entry.atime 3), ("k2:atime", Entry.atime 9)]
        0 false).store.countP (fun p => hasAtimeSuffix p.1) ∧
      (atimesOf (Backend.mk [("k1", Entry.res (5 : Nat)),
        ("k1:atime", Entry.atime 3), ("k2:atime", Entry.atime 9)]
        0 false).store = [] → (3 : Nat) = 10 ∧ (9 : Nat) = 0) ∧
      (atimesOf (Backend.mk [("k1", Entry.res (5 : Nat)),
        ("k1:atime", Entry.atime 3), ("k2:atime", Entry.atime 9)]
        0 false).store ≠ [] →
        3 ∈ atimesOf (Backend.mk [("k1", Entry.res (5 : Nat)),
          ("k1:atime", Entry.atime 3), ("k2:atime", Entry.atime 9)]
          0 false).store ∧
        9 ∈ atimesOf (Backend.mk [("k1", Entry.res (5 : Nat)),
          ("k1:atime", Entry.atime 3), ("k2:atime", Entry.atime 9)]
          0 false).store ∧
        ∀ t ∈ atimesOf (Backend.mk [("k1", Entry.res (5 : Nat)),
          ("k1:atime", Entry.atime 3), ("k2:atime", Entry.atime 9)]
          0 false).store, 3 ≤ t ∧ t ≤ 9)) :=
  ⟨rfl, by decide, by decide, rfl,
    claim_C7_stats 10 _ 2 3 9 rfl (by decide) (by decide) rfl⟩

/-! ## String-suffix facts for the `:atime` naming convention -/

theorem hasAtimeSuffix_append (k : String) :
    hasAtimeSuffix (k ++ ":atime") = true := by
  rw [hasAtimeSuffix, data_append]
  exact decide_eq_true (List.suffix_append _ _)

theorem stripAtime_append (k : String) : stripAtime (k ++ ":atime") = k := by
  apply String.ext
  show ((k ++ ":atime").data.take ((k ++ ":atime").data.length - 6)) = k.data
  rw [data_append, List.length_append]
  have h6 : (":atime").data.length = 6 := rfl
  rw [h6, Nat.add_sub_cancel]
  exact List.take_left k.data _

theorem append_stripAtime (k : String) (h : hasAtimeSuffix k = true) :
    stripAtime k ++ ":atime" = k := by
  rw [hasAtimeSuffix] at h
  obtain ⟨t, ht⟩ := of_decide_eq_true h
  apply String.ext
  rw [data_append]
  show (k.data.take (k.data.length - 6)) ++ (":atime").data = k.data
  have h6 : (":atime").data.length = 6 := rfl
  rw [← ht, List.length_append, h6, Nat.add_sub_cancel, List.take_left]

theorem alookup_double_atime_none (s : List (String × Entry β))
    (hdd : ∀ p ∈ s, decide ((":atime:atime").data <:+ p.1.data) = false)
    (kk : String) :
    alookup s (kk ++ ":atime" ++ ":atime") = none := by
  cases hl : alookup s (kk ++ ":atime" ++ ":atime") with
  | none => rfl
  | some e =>
    exfalso
    have hm := mem_of_alookup_eq_some _ _ _ hl
    have hdk := hdd _ hm
    rw [decide_eq_false_iff_not] at hdk
    apply hdk
    show (":atime:atime").data <:+ (kk ++ ":atime" ++ ":atime").data
    rw [data_append, data_append]
    have hsplit : (":atime:atime").data = (":atime").data ++ (":atime").data :=
      rfl
    rw [hsplit, List.append_assoc]
    exact List.suffix_append _ _

/-! ## `clear`: the deleted key set -/

theorem alookup_filter (q : String → Bool) (s : List (String × α)) (k : String) :
    alookup (s.filter (fun p => q p.1)) k
      = if q k then alookup s k else none := by
  induction s with
  | nil => cases hq : q k <;> simp [alookup, hq]
  | cons p t ih =>
    obtain ⟨k', v⟩ := p
    by_cases hk : k' = k
    · subst hk
      cases hq : q k' with
      | true => simp [List.filter_cons, hq, alookup]
      | false => simp [List.filter_cons, hq, alookup, ih]
    · cases hq : q k' with
      | true => simp [List.filter_cons, hq, alookup, hk, ih]
      | false => simp [List.filter_cons, hq, alookup, hk, ih]

theorem outdatedKeys_eq_flatMap (cutoff : Int) (s : List (String × Entry β)) :
    outdatedKeys cutoff s
      = (s.filter (fun p => hasAtimeSuffix p.1 && entryOutdated cutoff p.2)).flatMap
          (fun p => [p.1, stripAtime p.1]) := by
  induction s with
  | nil => rfl
  | cons p t ih =>
    cases hcond : (hasAtimeSuffix p.1 && entryOutdated cutoff p.2) with
    | true => simp [outdatedKeys, hcond, ih, List.filter_cons]
    | false => simp [outdatedKeys, hcond, ih, List.filter_cons]

theorem mem_outdatedKeys_iff (cutoff : Int) (s : List (String × Entry β))
    (k : String) :
    k ∈ outdatedKeys cutoff s ↔
      ∃ p ∈ s, (hasAtimeSuffix p.1 && entryOutdated cutoff p.2) = true ∧
        (k = p.1 ∨ k = stripAtime p.1) := by
  rw [outdatedKeys_eq_flatMap]
  simp only [List.mem_flatMap, List.mem_filter]
  constructor
  · rintro ⟨p, ⟨hp, hcond⟩, hmem⟩
    refine ⟨p, hp, hcond, ?_⟩
    simp only [List.mem_cons, List.not_mem_nil, or_false] at hmem
    exact hmem
  · rintro ⟨p, hp, hcond, hor⟩
    refine ⟨p, ⟨hp, hcond⟩, ?_⟩
    rcases hor with h1 | h1
    · rw [h1]
      exact List.mem_cons_self _ _
    · rw [h1]
      exact List.mem_cons_of_mem _ (List.mem_cons_self _ _)

theorem contains_iff_mem (l : List String) (k : String) :
    l.contains k = true ↔ k ∈ l :=
  List.elem_iff

theorem doomed_iff_mem_outdatedKeys (s : List (String × Entry β)) (cutoff : Int)
    (hnd : (s.map Prod.fst).Nodup)
    (hsuf : ∀ p ∈ s, hasAtimeSuffix p.1 = isAtimeEntry p.2)
    (k : String) :
    doomed s cutoff k = true ↔ k ∈ outdatedKeys cutoff s := by
  rw [doomed, Bool.or_eq_true, mem_outdatedKeys_iff]
  constructor
  · rintro (h1 | h2)
    · cases hl : alookup s k with
      | none => rw [hl] at h1; exact absurd h1 (by simp [optOutdated])
      | some e =>
        rw [hl] at h1
        have hout : entryOutdated cutoff e = true := h1
        have hm := mem_of_alookup_eq_some _ _ _ hl
        have hsufk : hasAtimeSuffix k = true := by
          rw [hsuf _ hm]
          cases e with
          | res v => exact absurd hout (by simp [entryOutdated])
          | atime t => rfl
        exact ⟨(k, e), hm, by rw [hsufk, hout]; rfl, Or.inl rfl⟩
    · cases hl : alookup s (k ++ ":atime") with
      | none => rw [hl] at h2; exact absurd h2 (by simp [optOutdated])
      | some e =>
        rw [hl] at h2
        have hout : entryOutdated cutoff e = true := h2
        have hm := mem_of_alookup_eq_some _ _ _ hl
        exact ⟨(k ++ ":atime", e), hm,
          by rw [hasAtimeSuffix_append, hout]; rfl,
          Or.inr (stripAtime_append k).symm⟩
  · rintro ⟨p, hp, hcond, hor⟩
    obtain ⟨k1, e1⟩ := p
    rw [Bool.and_eq_true] at hcond
    obtain ⟨hcs, hco⟩ := hcond
    rcases hor with h1 | h1
    · left
      rw [h1, alookup_eq_some_of_mem s hnd k1 e1 hp]
      exact hco
    · right
      have hk : k ++ ":atime" = k1 := by
        rw [h1]
        exact append_stripAtime k1 hcs
      rw [hk, alookup_eq_some_of_mem s hnd k1 e1 hp]
      exact hco

/-- C6: for every open, well-formed cache state and positive `max_age`,
`clear(max_age)` deletes exactly the keys doomed at cutoff
`now - max_age`: an entry pair (`<key>:atime` together with its paired
value key) whose stored access timestamp is older than the cutoff is
removed entirely, while every pair whose timestamp is at or after the
cutoff — including entries never hit since their last clear — is
retained unchanged, and no other key is touched. -/
theorem claim_C6_age_based_clear (maxage : Int) (now : Nat) (b : Backend β)
    (hopen : b.closed = false) (hpos : 0 < maxage)
    (hwf : wfStore b.store = true) :
    ∃ b', clear maxage now b = .ok b' ∧
      (∀ k, doomed b.store ((now : Int) - maxage) k = true →
        alookup b'.store k = none) ∧
      (∀ k, doomed b.store ((now : Int) - maxage) k = false →
        alookup b'.store k = alookup b.store k) ∧
      (∀ kk t, alookup b.store (kk ++ ":atime") = some (.atime t) →
        ((t : Int) < (now : Int) - maxage →
          alookup b'.store (kk ++ ":atime") = none ∧
          alookup b'.store kk = none) ∧
        ((now : Int) - maxage ≤ t →
          alookup b'.store (kk ++ ":atime") = some (.atime t) ∧
          alookup b'.store kk = alookup b.store kk)) := by
  obtain ⟨hnd, hsuf, hdd⟩ := wfStore_parts b.store hwf
  have hclear : clear maxage now b = .ok { b with
      store := b.store.filter
        (fun p => !((outdatedKeys ((now : Int) - maxage) b.store).contains p.1)) } := by
    rw [clear, hopen]
    simp only [Bool.false_eq_true, if_false]
    rw [if_pos hpos]
  have hmain : ∀ k,
      alookup (b.store.filter
        (fun p => !((outdatedKeys ((now : Int) - maxage) b.store).contains p.1))) k
      = if (outdatedKeys ((now : Int) - maxage) b.store).contains k then none
        else alookup b.store k := by
    intro k
    rw [alookup_filter
      (fun x => !((outdatedKeys ((now : Int) - maxage) b.store).contains x))
      b.store k]
    cases hc : (outdatedKeys ((now : Int) - maxage) b.store).contains k <;>
      simp [hc]
  have hA : ∀ k, doomed b.store ((now : Int) - maxage) k = true →
      alookup (b.store.filter
        (fun p => !((outdatedKeys ((now : Int) - maxage) b.store).contains p.1))) k
      = none := by
    intro k hk
    rw [hmain k, if_pos ((contains_iff_mem _ _).mpr
      ((doomed_iff_mem_outdatedKeys b.store _ hnd hsuf k).mp hk))]
  have hB : ∀ k, doomed b.store ((now : Int) - maxage) k = false →
      alookup (b.store.filter
        (fun p => !((outdatedKeys ((now : Int) - maxage) b.store).contains p.1))) k
      = alookup b.store k := by
    intro k hk
    have hc : (outdatedKeys ((now : Int) - maxage) b.store).contains k = false := by
      rw [Bool.eq_false_iff]
      intro hcontra
      have := (doomed_iff_mem_outdatedKeys b.store _ hnd hsuf k).mpr
        ((contains_iff_mem _ _).mp hcontra)
      rw [hk] at this
      exact Bool.false_ne_true this
    rw [hmain k, hc]
    simp
  refine ⟨_, hclear, hA, hB, ?_⟩
  intro kk t hl
  constructor
  · intro ht
    have hd1 : doomed b.store ((now : Int) - maxage) (kk ++ ":atime") = true := by
      rw [doomed, Bool.or_eq_true]
      left
      rw [hl]
      exact decide_eq_true ht
    have hd2 : doomed b.store ((now : Int) - maxage) kk = true := by
      rw [doomed, Bool.or_eq_true]
      right
      rw [hl]
      exact decide_eq_true ht
    exact ⟨hA _ hd1, hA _ hd2⟩
  · intro ht
    have hnotlt : ¬ ((t : Int) < (now : Int) - maxage) := not_lt.mpr ht
    have hd1 : doomed b.store ((now : Int) - maxage) (kk ++ ":atime") = false := by
      rw [Bool.eq_false_iff]
      intro hcontra
      rw [doomed, Bool.or_eq_true] at hcontra
      rcases hcontra with h1 | h2
      · rw [hl] at h1
        exact hnotlt (of_decide_eq_true h1)
      · rw [alookup_double_atime_none b.store hdd kk] at h2
        exact Bool.false_ne_true h2
    have hd2 : doomed b.store ((now : Int) - maxage) kk = false := by
      rw [Bool.eq_false_iff]
      intro hcontra
      rw [doomed, Bool.or_eq_true] at hcontra
      rcases hcontra with h1 | h2
      · cases hlk : alookup b.store kk with
        | none =>
          rw [hlk] at h1
          exact Bool.false_ne_true h1
        | some e =>
          rw [hlk] at h1
          cases e with
          | res v => exact Bool.false_ne_true h1
          | atime t' =>
            have hmk := mem_of_alookup_eq_some _ _ _ hlk
            have hsufkk : hasAtimeSuffix kk = true := by
              rw [hsuf _ hmk]
              rfl
            rw [hasAtimeSuffix] at hsufkk
            obtain ⟨u, hu⟩ := of_decide_eq_true hsufkk
            have hmka := mem_of_alookup_eq_some _ _ _ hl
            have hdk := hdd _ hmka
            rw [decide_eq_false_iff_not] at hdk
            apply hdk
            show (":atime:atime").data <:+ (kk ++ ":atime").data
            have hsplit : (":atime:atime").data
                = (":atime").data ++ (":atime").data := rfl
            rw [data_append, hsplit, ← hu, List.append_assoc]
            exact List.suffix_append _ _
      · rw [hl] at h2
        exact hnotlt (of_decide_eq_true h2)
    refine ⟨?_, hB _ hd2⟩
    rw [hB _ hd1, hl]

/-- Witness for C6: the spec's eviction scenario — `A` accessed at time
0 and `B` at time 2; `clear(max_age = 1)` at time 3 (cutoff 2) removes
the `A` pair and keeps the `B` pair. -/
theorem claim_C6_age_based_clear_witness :
    backendAB.closed = false ∧
    (0 : Int) < 1 ∧
    wfStore backendAB.store = true ∧
    (∃ b', clear 1 3 backendAB = .ok b' ∧
      (∀ k, doomed backendAB.store (((3 : Nat) : Int) - 1) k = true →
        alookup b'.store k = none) ∧
      (∀ k, doomed backendAB.store (((3 : Nat) : Int) - 1) k = false →
        alookup b'.store k = alookup backendAB.store k) ∧
      (∀ kk t, alookup backendAB.store (kk ++ ":atime") = some (.atime t) →
        ((t : Int) < ((3 : Nat) : Int) - 1 →
          alookup b'.store (kk ++ ":atime") = none ∧
          alookup b'.store kk = none) ∧
        (((3 : Nat) : Int) - 1 ≤ t →
          alookup b'.store (kk ++ ":atime") = some (.atime t) ∧
          alookup b'.store kk = alookup backendAB.store kk))) :=
  ⟨rfl, by decide, by decide,
    claim_C6_age_based_clear 1 3 backendAB rfl (by decide) (by decide)⟩

end Percache
